import Mathlib

/-!
Verification of the async-sema counting semaphore (src/lib.rs).

The semaphore state is a single atomic usize counter `count` plus an
event-listener `Event`.  We embed the operations at their linearization
points: `try_acquire` is the guarded CAS decrement (the retry loop of the
source re-reads on contention; sequentially its effect is the successful
CAS, or the `count == 0` early return), `add_permits` is the wrapping
`fetch_add` followed by `event.notify(n)`, and `acquire` is the
retry/listen loop driven by a schedule of permits added by other tasks.
Machine integers: `count` is a usize, so `fetch_add` wraps modulo `2 ^ w`
where `w` is the usize bit width; `w` is a parameter of the embedding.
-/

namespace AsyncSema

/-- The permit counter of `SemaphoreInner` (src/lib.rs lines 7-11): the
`AtomicUsize` field `count`, modelled as a natural number (a usize value,
kept below `2 ^ w` by the operations). The `event` field is modelled
separately (see `Event` below) for the claims that need it. -/
structure SemaphoreInner where
  count : Nat
deriving Repr, DecidableEq

/-- SemaphoreInner::new (lines 14-19): count starts at `n`. -/
def SemaphoreInner.new (n : Nat) : SemaphoreInner :=
  ⟨n⟩

/-- SemaphoreInner::try_acquire (lines 21-38): load the count; if it is 0
return false without writing; otherwise CAS `count -> count - 1` and
return true.  Sequentially the CAS succeeds on first attempt, so the
whole retry loop linearizes to this one step.  Returns the flag and the
state after the call. -/
def SemaphoreInner.try_acquire (s : SemaphoreInner) : Bool × SemaphoreInner :=
  if s.count = 0 then (false, s) else (true, ⟨s.count - 1⟩)

/-- SemaphoreInner::add_permits (lines 76-79), counter part only:
`self.count.fetch_add(n)` on a `w`-bit usize, i.e. wrapping addition
modulo `2 ^ w`.  The `event.notify(n)` side effect is modelled in
`SemaphoreE.add_permits` below. -/
def SemaphoreInner.add_permits (w : Nat) (s : SemaphoreInner) (n : Nat) : SemaphoreInner :=
  ⟨(s.count + n) % 2 ^ w⟩

/-- SemaphoreInner::acquire (lines 40-53): loop { if try_acquire() return;
listen/await }.  The loop is driven by a schedule: `sched` lists, for each
loop iteration, the number of permits other tasks add (via add_permits)
while this task is between iterations (0 = no interleaved add).  Returns
the state after completion (`none` when the schedule is exhausted with the
call still suspended) together with the total permits added by the
consumed part of the schedule. -/
def SemaphoreInner.acquireRun (w : Nat) : List Nat → SemaphoreInner → Option SemaphoreInner × Nat
  | [], _ => (none, 0)
  | k :: rest, s =>
    let s1 := s.add_permits w k
    match s1.try_acquire with
    | (true, s2) => (some s2, k)
    | (false, s2) =>
      let r := SemaphoreInner.acquireRun w rest s2
      (r.1, k + r.2)

/-- The event_listener Event (the `event` field): the number of currently
registered, not-yet-notified listeners. -/
structure Event where
  waiters : Nat
deriving Repr, DecidableEq

/-- event_listener Event::notify(n): notifies at most `n` of the active
listeners (not all of them).  Returns the event state afterwards and the
number of listeners actually notified, `min n waiters`. -/
def Event.notify (e : Event) (n : Nat) : Event × Nat :=
  (⟨e.waiters - n⟩, min n e.waiters)

/-- SemaphoreInner with its event, for the claims about notification. -/
structure SemaphoreE where
  count : Nat
  event : Event
deriving Repr, DecidableEq

/-- SemaphoreInner::add_permits (lines 76-79) in full:
`self.count.fetch_add(n)` then `self.event.notify(n)`.  Returns the new
state and the number of waiters notified. -/
def SemaphoreE.add_permits (w : Nat) (s : SemaphoreE) (n : Nat) : SemaphoreE × Nat :=
  let r := s.event.notify n
  (⟨(s.count + n) % 2 ^ w, r.1⟩, r.2)

/-- The public Semaphore handle (lines 82-183): an Arc around
SemaphoreInner; every method delegates to the inner one.  The Arc is
transparent in this embedding. -/
structure Semaphore where
  inner : SemaphoreInner
deriving Repr, DecidableEq

/-- Semaphore::new (lines 100-104). -/
def Semaphore.new (n : Nat) : Semaphore :=
  ⟨SemaphoreInner.new n⟩

/-- Semaphore::try_acquire (lines 126-128): delegates to the inner
semaphore. -/
def Semaphore.try_acquire (s : Semaphore) : Bool × Semaphore :=
  let r := s.inner.try_acquire
  (r.1, ⟨r.2⟩)

/-- Semaphore::add_permits (lines 180-182): delegates to the inner
semaphore (counter part). -/
def Semaphore.add_permits (w : Nat) (s : Semaphore) (n : Nat) : Semaphore :=
  ⟨s.inner.add_permits w n⟩

/-- C1: try_acquire on a semaphore with available count a grants
min(a, 1) permits: it returns true and decrements the count by exactly 1
when a >= 1, and returns false (grants 0) exactly when a = 0, and the
public Semaphore::try_acquire delegates to this. -/
theorem try_acquire_grants_min (s : SemaphoreInner) :
    ((s.try_acquire).1 = true ↔ 1 ≤ s.count) ∧
    (if (s.try_acquire).1 then 1 else 0) = min s.count 1 ∧
    (s.try_acquire).2.count = s.count - min s.count 1 ∧
    (Semaphore.try_acquire ⟨s⟩).1 = (s.try_acquire).1 ∧
    (Semaphore.try_acquire ⟨s⟩).2.inner = (s.try_acquire).2 := by
  by_cases h : s.count = 0
  · simp [SemaphoreInner.try_acquire, Semaphore.try_acquire, h]
  · have h1 : 1 ≤ s.count := by omega
    simp [SemaphoreInner.try_acquire, Semaphore.try_acquire, h, h1,
      min_eq_right h1]

/-- C9: whenever try_acquire returns false the state is completely
unchanged: the returned state is the very state it observed, and this
happens only upon observing count 0. -/
theorem try_acquire_false_unchanged (s : SemaphoreInner)
    (h : (s.try_acquire).1 = false) :
    (s.try_acquire).2 = s ∧ s.count = 0 := by
  unfold SemaphoreInner.try_acquire at h ⊢
  by_cases h0 : s.count = 0 <;> simp [h0] at h ⊢

/-- Witness for C9 at the concrete state with count 0. -/
theorem try_acquire_false_unchanged_witness :
    ((SemaphoreInner.mk 0).try_acquire).2 = SemaphoreInner.mk 0 ∧
    (SemaphoreInner.mk 0).count = 0 :=
  try_acquire_false_unchanged (SemaphoreInner.mk 0) (by decide)

/-- C10: add_permits is an unguarded wrapping fetch-add: the resulting
count is (c + n) mod 2^w for the usize bit width w; add_permits 0 leaves
the count unchanged; and on overflow the count silently wraps to
c + n - 2^w, a value strictly smaller than the unwrapped sum (no panic,
saturation or precondition check: the function is total). -/
theorem add_permits_wraps (w : Nat) (s : SemaphoreInner) (n : Nat) :
    (s.add_permits w n).count = (s.count + n) % 2 ^ w ∧
    (s.count < 2 ^ w → s.add_permits w 0 = s) ∧
    (s.count < 2 ^ w → n < 2 ^ w → 2 ^ w ≤ s.count + n →
      (s.add_permits w n).count = s.count + n - 2 ^ w ∧
      (s.add_permits w n).count < s.count + n) := by
  unfold SemaphoreInner.add_permits
  refine ⟨rfl, ?_, ?_⟩
  · intro h
    simp [Nat.mod_eq_of_lt h]
  · intro hc hn hov
    have h1 : s.count + n - 2 ^ w < 2 ^ w := by omega
    have h2 : (s.count + n) % 2 ^ w = (s.count + n - 2 ^ w) % 2 ^ w := by
      conv_lhs => rw [Nat.mod_eq_sub_mod hov]
    dsimp only
    rw [h2, Nat.mod_eq_of_lt h1]
    have hpos : 0 < 2 ^ w := Nat.pos_pow_of_pos w (by omega)
    exact ⟨rfl, by omega⟩

/-- Witness for C10: w = 3, count 5, adding 6 wraps to 11 - 8 = 3. -/
theorem add_permits_wraps_witness :
    ((SemaphoreInner.mk 5).add_permits 3 6).count = (5 + 6) % 2 ^ 3 ∧
    ((SemaphoreInner.mk 5).add_permits 3 0 = SemaphoreInner.mk 5) ∧
    (((SemaphoreInner.mk 5).add_permits 3 6).count = 5 + 6 - 2 ^ 3 ∧
      ((SemaphoreInner.mk 5).add_permits 3 6).count < 5 + 6) := by
  have h := add_permits_wraps 3 (SemaphoreInner.mk 5) 6
  exact ⟨h.1, h.2.1 (by decide), h.2.2 (by decide) (by decide) (by decide)⟩

/-- An operation of a sequential client trace against one semaphore. -/
inductive Op where
  | tryAcquire : Op
  | acquire : Op
  | addPermits : Nat → Op
deriving Repr, DecidableEq

/-- The semaphore counter together with ghost accounting for a trace:
`held` counts permits granted (by successful try_acquire or completed
acquire) and not returned, `added` is the running sum of all add_permits
amounts. -/
structure TraceState where
  count : Nat
  held : Nat
  added : Nat
deriving Repr, DecidableEq

/-- One trace step, delegating to the embedded operations.  A sequential
trace contains a completed `acquire` only when its first try_acquire
succeeded (lines 40-53: with no other task running, a caller that finds
count = 0 suspends and no later point of the trace exists), so `acquire`
steps to `none` when count = 0. -/
def stepOp (w : Nat) : Op → TraceState → Option TraceState
  | Op.tryAcquire, st =>
    let r := SemaphoreInner.try_acquire ⟨st.count⟩
    some ⟨r.2.count, st.held + (if r.1 then 1 else 0), st.added⟩
  | Op.acquire, st =>
    let r := SemaphoreInner.try_acquire ⟨st.count⟩
    if r.1 then some ⟨r.2.count, st.held + 1, st.added⟩ else none
  | Op.addPermits n, st =>
    some ⟨(SemaphoreInner.add_permits w ⟨st.count⟩ n).count, st.held, st.added + n⟩

/-- Run a trace of operations from a state. -/
def runOps (w : Nat) : List Op → TraceState → Option TraceState
  | [], st => some st
  | op :: rest, st =>
    match stepOp w op st with
    | none => none
    | some st1 => runOps w rest st1

/-- Total amount added by the add_permits operations of a trace. -/
def sumAdds : List Op → Nat
  | [] => 0
  | Op.addPermits n :: rest => n + sumAdds rest
  | _ :: rest => sumAdds rest

theorem runOps_conservation (w : Nat) (ops : List Op) :
    ∀ (st0 st : TraceState) (n : Nat),
    runOps w ops st0 = some st →
    st0.count + st0.held = n + st0.added →
    st0.count + sumAdds ops < 2 ^ w →
    st.count + st.held = n + st.added := by
  induction ops with
  | nil =>
    intro st0 st n hrun hinv hov
    simp [runOps] at hrun
    simpa [hrun] using hinv
  | cons op rest ih =>
    intro st0 st n hrun hinv hov
    cases op with
    | tryAcquire =>
      by_cases h0 : st0.count = 0
      · simp [runOps, stepOp, SemaphoreInner.try_acquire, h0] at hrun
        refine ih _ st n hrun ?_ ?_
        · simpa [h0] using hinv
        · simpa [h0, sumAdds] using hov
      · simp [runOps, stepOp, SemaphoreInner.try_acquire, h0] at hrun
        refine ih _ st n hrun ?_ ?_
        · dsimp only
          omega
        · dsimp only
          simp [sumAdds] at hov ⊢
          omega
    | acquire =>
      by_cases h0 : st0.count = 0
      · simp [runOps, stepOp, SemaphoreInner.try_acquire, h0] at hrun
      · simp [runOps, stepOp, SemaphoreInner.try_acquire, h0] at hrun
        refine ih _ st n hrun ?_ ?_
        · dsimp only
          omega
        · dsimp only
          simp [sumAdds] at hov ⊢
          omega
    | addPermits k =>
      simp [runOps, stepOp, SemaphoreInner.add_permits] at hrun
      have hs : sumAdds (Op.addPermits k :: rest) = k + sumAdds rest := rfl
      have hk : st0.count + k < 2 ^ w := by omega
      rw [Nat.mod_eq_of_lt hk] at hrun
      refine ih _ st n hrun ?_ ?_
      · dsimp only
        omega
      · dsimp only
        omega

/-- Counterexample to C2 as stated: on a 64-bit usize, the trace
new(1); add_permits(2^64 - 1) (a representable usize amount) wraps the
counter to 0, and at that point available + held = 0 while
initial + sum of add_permits amounts = 2^64. -/
theorem conservation_overflow_cex :
    runOps 64 [Op.addPermits (2 ^ 64 - 1)] ⟨1, 0, 0⟩ =
      some ⟨(1 + (2 ^ 64 - 1)) % 2 ^ 64, 0, 0 + (2 ^ 64 - 1)⟩ ∧
    (1 + (2 ^ 64 - 1)) % 2 ^ 64 + 0 ≠ 1 + (0 + (2 ^ 64 - 1)) := by
  constructor
  · rfl
  · decide

/-- C2 (amended): for every finite sequence of new/try_acquire/acquire/
add_permits operations whose total supply initial + sum(add_permits
amounts) stays below 2^w (no counter overflow — the spec makes overflow a
caller precondition), at every reachable point
available + held = initial + sum(add_permits so far). -/
theorem conservation (w : Nat) (ops : List Op) (n : Nat) (st : TraceState)
    (hrun : runOps w ops ⟨n, 0, 0⟩ = some st)
    (hov : n + sumAdds ops < 2 ^ w) :
    st.count + st.held = n + st.added :=
  runOps_conservation w ops ⟨n, 0, 0⟩ st n hrun (by simp) (by simpa using hov)

/-- Witness for C2 on the trace new(2); try_acquire; add_permits(3);
acquire: final state has count 3, held 2, added 3 and 3 + 2 = 2 + 3. -/
theorem conservation_witness :
    (⟨3, 2, 3⟩ : TraceState).count + (⟨3, 2, 3⟩ : TraceState).held =
      2 + (⟨3, 2, 3⟩ : TraceState).added :=
  conservation 64 [Op.tryAcquire, Op.addPermits 3, Op.acquire] 2 ⟨3, 2, 3⟩
    (by decide) (by decide)

/-- The counter as a true (signed) integer, mirroring try_acquire: the
decrement happens only behind the count = 0 guard. -/
def tryAcquireZ (c : Int) : Bool × Int :=
  if c = 0 then (false, c) else (true, c - 1)

/-- The counter as a true integer, mirroring the wrapping fetch_add. -/
def addPermitsZ (w : Nat) (c : Int) (n : Nat) : Int :=
  (c + n) % 2 ^ w

/-- Trace step on the integer-valued counter. -/
def stepOpZ (w : Nat) : Op → Int → Option Int
  | Op.tryAcquire, c => some (tryAcquireZ c).2
  | Op.acquire, c => if (tryAcquireZ c).1 then some (tryAcquireZ c).2 else none
  | Op.addPermits n, c => some (addPermitsZ w c n)

/-- Run a trace on the integer-valued counter. -/
def runOpsZ (w : Nat) : List Op → Int → Option Int
  | [], c => some c
  | op :: rest, c =>
    match stepOpZ w op c with
    | none => none
    | some c1 => runOpsZ w rest c1

theorem runOpsZ_nonneg (w : Nat) (ops : List Op) :
    ∀ c0 c : Int, runOpsZ w ops c0 = some c → 0 ≤ c0 → 0 ≤ c := by
  induction ops with
  | nil =>
    intro c0 c hrun h0
    simp [runOpsZ] at hrun
    omega
  | cons op rest ih =>
    intro c0 c hrun h0
    cases op with
    | tryAcquire =>
      by_cases hz : c0 = 0
      · simp [runOpsZ, stepOpZ, tryAcquireZ, hz] at hrun
        exact ih _ c hrun (by omega)
      · simp [runOpsZ, stepOpZ, tryAcquireZ, hz] at hrun
        exact ih _ c hrun (by omega)
    | acquire =>
      by_cases hz : c0 = 0
      · simp [runOpsZ, stepOpZ, tryAcquireZ, hz] at hrun
      · simp [runOpsZ, stepOpZ, tryAcquireZ, hz] at hrun
        exact ih _ c hrun (by omega)
    | addPermits k =>
      simp [runOpsZ, stepOpZ, addPermitsZ] at hrun
      refine ih _ c hrun ?_
      refine Int.emod_nonneg _ ?_
      positivity

theorem runOpsZ_agrees (w : Nat) (ops : List Op) :
    ∀ (st0 st : TraceState), runOps w ops st0 = some st →
    runOpsZ w ops (st0.count : Int) = some (st.count : Int) := by
  induction ops with
  | nil =>
    intro st0 st hrun
    simp [runOps] at hrun
    simp [runOpsZ, hrun]
  | cons op rest ih =>
    intro st0 st hrun
    cases op with
    | tryAcquire =>
      by_cases h0 : st0.count = 0
      · simp [runOps, stepOp, SemaphoreInner.try_acquire, h0] at hrun
        simpa [runOpsZ, stepOpZ, tryAcquireZ, h0] using ih _ st hrun
      · simp [runOps, stepOp, SemaphoreInner.try_acquire, h0] at hrun
        have := ih _ st hrun
        have hcast : ((st0.count - 1 : Nat) : Int) = (st0.count : Int) - 1 := by
          omega
        simp [runOpsZ, stepOpZ, tryAcquireZ, h0, hcast]
        rw [hcast] at this
        exact this
    | acquire =>
      by_cases h0 : st0.count = 0
      · simp [runOps, stepOp, SemaphoreInner.try_acquire, h0] at hrun
      · simp [runOps, stepOp, SemaphoreInner.try_acquire, h0] at hrun
        have := ih _ st hrun
        have hcast : ((st0.count - 1 : Nat) : Int) = (st0.count : Int) - 1 := by
          omega
        simp [runOpsZ, stepOpZ, tryAcquireZ, h0, hcast]
        rw [hcast] at this
        exact this
    | addPermits k =>
      simp [runOps, stepOp, SemaphoreInner.add_permits] at hrun
      have := ih _ st hrun
      have hcast : (((st0.count + k) % 2 ^ w : Nat) : Int) =
          ((st0.count : Int) + (k : Int)) % 2 ^ w := by
        push_cast
        ring_nf
      simp [runOpsZ, stepOpZ, addPermitsZ]
      rw [← hcast]
      simpa using this

/-- C6: the available count never observably becomes negative: on the
signed-integer semantics of the counter (where an unguarded decrement
could go below zero), every reachable value of the counter is nonnegative
— each decrement sits behind the count = 0 guard of try_acquire — and
the signed semantics agrees with the usize semantics of the code on
every trace, so no operation drives the count below zero. -/
theorem count_never_negative (w : Nat) (ops : List Op) (n : Nat) :
    (∀ c : Int, runOpsZ w ops (n : Int) = some c → 0 ≤ c) ∧
    (∀ st : TraceState, runOps w ops ⟨n, 0, 0⟩ = some st →
      runOpsZ w ops (n : Int) = some (st.count : Int)) := by
  constructor
  · intro c hrun
    exact runOpsZ_nonneg w ops (n : Int) c hrun (by positivity)
  · intro st hrun
    simpa using runOpsZ_agrees w ops ⟨n, 0, 0⟩ st hrun

/-- Witness for C6 on the trace new(2); try_acquire: the reachable
counter value 1 is nonnegative and the signed run agrees. -/
theorem count_never_negative_witness :
    (0 : Int) ≤ ((1 : Nat) : Int) ∧
    runOpsZ 64 [Op.tryAcquire] ((2 : Nat) : Int) =
      some (((⟨1, 1, 0⟩ : TraceState).count : Nat) : Int) :=
  ⟨(count_never_negative 64 [Op.tryAcquire] 2).1 ((1 : Nat) : Int) (by decide),
   (count_never_negative 64 [Op.tryAcquire] 2).2 ⟨1, 1, 0⟩ (by decide)⟩

theorem acquireRun_consumes (w : Nat) (sched : List Nat) :
    ∀ (s s2 : SemaphoreInner) (n : Nat),
    SemaphoreInner.acquireRun w sched s = (some s2, n) →
    s.count + n < 2 ^ w →
    s2.count + 1 = s.count + n := by
  induction sched with
  | nil =>
    intro s s2 n hrun _
    simp [SemaphoreInner.acquireRun] at hrun
  | cons k rest ih =>
    intro s s2 n hrun hov
    by_cases h0 : (s.count + k) % 2 ^ w = 0
    · simp [SemaphoreInner.acquireRun, SemaphoreInner.add_permits,
        SemaphoreInner.try_acquire, h0] at hrun
      obtain ⟨hr, hn⟩ := hrun
      have hm : (SemaphoreInner.acquireRun w rest ⟨0⟩).2 < 2 ^ w := by omega
      have ih2 := ih ⟨0⟩ s2 (SemaphoreInner.acquireRun w rest ⟨0⟩).2
        (by rw [← hr]) (by simpa using hm)
      have hk : s.count + k < 2 ^ w := by omega
      have hz : s.count + k = 0 := by
        rw [Nat.mod_eq_of_lt hk] at h0
        exact h0
      simp at ih2
      omega
    · simp [SemaphoreInner.acquireRun, SemaphoreInner.add_permits,
        SemaphoreInner.try_acquire, h0] at hrun
      obtain ⟨hr, hn⟩ := hrun
      have hk : s.count + k < 2 ^ w := by omega
      rw [← hr, ← hn]
      dsimp only
      rw [Nat.mod_eq_of_lt hk]
      have : 0 < s.count + k := by
        rcases Nat.eq_zero_or_pos (s.count + k) with h | h
        · rw [Nat.mod_eq_of_lt hk] at h0
          exact absurd h h0
        · exact h
      omega

/-- C5: the implemented single-permit acquire (acquire() = acquire(1))
completes only after one successful try_acquire: whenever the loop
completes under a schedule of interleaved add_permits totalling n (with
no counter overflow), the final count is the initial count plus n minus
exactly 1 — one net decrement coinciding with completion; and when a
permit is available on the first attempt the call returns immediately, on
the first loop iteration, without suspending. -/
theorem acquire_one_net_decrement (w : Nat) (sched : List Nat)
    (s s2 : SemaphoreInner) (n : Nat) :
    (SemaphoreInner.acquireRun w sched s = (some s2, n) →
      s.count + n < 2 ^ w → s2.count + 1 = s.count + n) ∧
    (1 ≤ s.count → s.count < 2 ^ w →
      SemaphoreInner.acquireRun w (0 :: sched) s = (some ⟨s.count - 1⟩, 0)) := by
  constructor
  · intro hrun hov
    exact acquireRun_consumes w sched s s2 n hrun hov
  · intro h1 hw
    have hmod : s.count % 2 ^ w = s.count := Nat.mod_eq_of_lt hw
    have hne : ¬ s.count = 0 := by omega
    simp [SemaphoreInner.acquireRun, SemaphoreInner.add_permits,
      SemaphoreInner.try_acquire, hmod, hne]

/-- Witness for C5: from count 2, the loop completes on its first
iteration with no interleaved adds, leaving count 1 = 2 + 0 - 1. -/
theorem acquire_one_net_decrement_witness :
    ((⟨1⟩ : SemaphoreInner).count + 1 = (⟨2⟩ : SemaphoreInner).count + 0) ∧
    SemaphoreInner.acquireRun 64 (0 :: [0]) ⟨2⟩ =
      (some ⟨(⟨2⟩ : SemaphoreInner).count - 1⟩, 0) :=
  ⟨(acquire_one_net_decrement 64 [0] ⟨2⟩ ⟨1⟩ 0).1 (by decide) (by decide),
   (acquire_one_net_decrement 64 [0] ⟨2⟩ ⟨1⟩ 0).2 (by decide) (by decide)⟩

/-- C7: new(initial) always starts with available = initial (zero
included), and the scenario new(2): two acquire() calls complete on their
first loop iteration (immediately, no suspension), a third try_acquire()
returns false, and after add_permits(1) a further try_acquire() returns
true. -/
theorem scenario_sequential (n : Nat) :
    (Semaphore.new n).inner.count = n ∧
    (SemaphoreInner.new n).count = n ∧
    SemaphoreInner.acquireRun 64 [0] (Semaphore.new 2).inner = (some ⟨1⟩, 0) ∧
    SemaphoreInner.acquireRun 64 [0] ⟨1⟩ = (some ⟨0⟩, 0) ∧
    (⟨0⟩ : SemaphoreInner).try_acquire = (false, ⟨0⟩) ∧
    (⟨0⟩ : SemaphoreInner).add_permits 64 1 = ⟨1⟩ ∧
    (⟨1⟩ : SemaphoreInner).try_acquire = (true, ⟨0⟩) := by
  refine ⟨rfl, rfl, ?_, ?_, ?_, ?_, ?_⟩ <;> decide

/-- Counterexample to C8 as stated: with 2 registered waiters,
add_permits(1) runs event.notify(1), which notifies only 1 waiter — the
other registered waiter is left unnotified, so not all registered waiters
are woken. -/
theorem add_permits_leaves_waiter_cex :
    (SemaphoreE.add_permits 64 ⟨0, ⟨2⟩⟩ 1).2 = 1 ∧
    (SemaphoreE.add_permits 64 ⟨0, ⟨2⟩⟩ 1).1.event.waiters = 1 ∧
    ¬ (SemaphoreE.add_permits 64 ⟨0, ⟨2⟩⟩ 1).2 = 2 := by
  refine ⟨?_, ?_, ?_⟩ <;> decide

/-- C8 (amended): add_permits(n) notifies min(n, registered waiters)
waiters — enough to consume the n permits just returned — leaving the
remaining waiters registered; in particular every registered waiter is
notified exactly when n is at least their number. -/
theorem add_permits_notifies_n (w : Nat) (s : SemaphoreE) (n : Nat) :
    (s.add_permits w n).2 = min n s.event.waiters ∧
    (s.add_permits w n).1.event.waiters = s.event.waiters - n ∧
    (s.event.waiters ≤ n →
      (s.add_permits w n).1.event.waiters = 0 ∧
      (s.add_permits w n).2 = s.event.waiters) := by
  unfold SemaphoreE.add_permits Event.notify
  refine ⟨rfl, rfl, ?_⟩
  intro h
  dsimp only
  constructor
  · omega
  · omega

/-- Witness for C8 (amended): 2 registered waiters, add_permits(3)
notifies both and leaves none registered. -/
theorem add_permits_notifies_n_witness :
    (SemaphoreE.add_permits 64 ⟨0, ⟨2⟩⟩ 3).1.event.waiters = 0 ∧
    (SemaphoreE.add_permits 64 ⟨0, ⟨2⟩⟩ 3).2 = (⟨0, ⟨2⟩⟩ : SemaphoreE).event.waiters :=
  (add_permits_notifies_n 64 ⟨0, ⟨2⟩⟩ 3).2.2 (by decide)

/-- The mark_process step of acquire_timeout (lines 58-63):
compare_exchange_weak(false, true) on the `processed` flag, used
one-shot with no retry loop.  Rust permits a weak CAS to fail spuriously
even when the comparison succeeds, so the attempt carries an explicit
`spurious` input: it succeeds only when the flag is still false (the
outcome still pending) and the attempt does not fail spuriously; the
flag is set to true only on success.  Returns (succeeded, flag after). -/
def markProcess (flag spurious : Bool) : Bool × Bool :=
  if flag then (false, flag)
  else if spurious then (false, flag)
  else (true, true)

/-- Outcome of one acquire_timeout execution: the returned Bool, the
semaphore afterwards, whether each side won the CAS on the processed
flag, and how many permits the acquire side refunded. -/
structure TimeoutOutcome where
  result : Bool
  sem : SemaphoreInner
  acquireMarked : Bool
  timerMarked : Bool
  refunded : Nat
deriving Repr, DecidableEq

/-- SemaphoreInner::acquire_timeout (lines 55-74).  The execution is
driven by the resolution of the race: `acquireCompletes` says whether the
inner acquire obtained its permit (its successful try_acquire; possible
only when a permit is available) before the call settled, `timedOut`
whether the timer fired (tokio's timeout returned Err; when the acquire
never completes this is the only way the call returns), `timerFirst`
orders the two CAS attempts on the processed flag when both happen, and
`spA` / `spT` say whether the acquire-side (line 66) and the timer-side
(line 72) one-shot weak CAS attempts fail spuriously.  Following the
source: the future marks after acquiring and refunds one permit via
add_permits(1) when its CAS attempt fails; the Ok branch returns true;
the Err branch returns the negation of the timer's CAS success. -/
def SemaphoreInner.acquire_timeout (w : Nat) (s : SemaphoreInner)
    (acquireCompletes timedOut timerFirst spA spT : Bool) : TimeoutOutcome :=
  if acquireCompletes then
    let s1 := (s.try_acquire).2
    if timedOut && timerFirst then
      let mt := markProcess false spT
      let ma := markProcess mt.2 spA
      { result := !mt.1
        sem := if ma.1 then s1 else s1.add_permits w 1
        acquireMarked := ma.1
        timerMarked := mt.1
        refunded := if ma.1 then 0 else 1 }
    else
      let ma := markProcess false spA
      let r := if timedOut then
          let mt := markProcess ma.2 spT
          (!mt.1, mt.1)
        else (true, false)
      { result := r.1
        sem := if ma.1 then s1 else s1.add_permits w 1
        acquireMarked := ma.1
        timerMarked := r.2
        refunded := if ma.1 then 0 else 1 }
  else
    let mt := markProcess false spT
    { result := !mt.1
      sem := s
      acquireMarked := false
      timerMarked := mt.1
      refunded := 0 }

/-- C3: refuted on the code as written.  mark_process is a one-shot
compare_exchange_weak, and Rust permits a weak CAS to fail spuriously
even on a still-pending flag.  At the concrete input where the acquire
completes before the deadline on a semaphore with count 1 and the
future-side CAS attempt fails spuriously, the call returns true while
the consumed permit was also refunded to the pool: the caller is told it
holds a permit, the pool got the permit back as well — the forbidden
"both" outcome — and neither side ever decided the flag. -/
theorem acquire_timeout_double_outcome :
    ((⟨1⟩ : SemaphoreInner).acquire_timeout 64 true false false true false).result = true ∧
    ((⟨1⟩ : SemaphoreInner).acquire_timeout 64 true false false true false).refunded = 1 ∧
    ((⟨1⟩ : SemaphoreInner).acquire_timeout 64 true false false true false).sem.count = 1 ∧
    ((⟨1⟩ : SemaphoreInner).acquire_timeout 64 true false false true false).acquireMarked = false ∧
    ((⟨1⟩ : SemaphoreInner).acquire_timeout 64 true false false true false).timerMarked = false := by
  refine ⟨?_, ?_, ?_, ?_, ?_⟩ <;> decide

theorem acquireRun_empty_stuck (w : Nat) (m : Nat) :
    SemaphoreInner.acquireRun w (List.replicate m 0) ⟨0⟩ = (none, 0) := by
  induction m with
  | zero => rfl
  | succ k ih =>
    simp [List.replicate, SemaphoreInner.acquireRun, SemaphoreInner.add_permits,
      SemaphoreInner.try_acquire, ih]

/-- C4: refuted for Scenario B on the code as written.  From new(0) with
no add_permits the acquire loop never completes under any schedule of
idle iterations, so the call can only settle by timeout; but the Err
branch returns the negation of a one-shot weak CAS, so when that CAS
fails spuriously (permitted by Rust) the timed-out call returns true
instead of the guaranteed false.  The count half of the scenario does
hold: available remains 0. -/
theorem acquire_timeout_scenario_b_true :
    ((⟨0⟩ : SemaphoreInner).acquire_timeout 64 false true false false true).result = true ∧
    ((⟨0⟩ : SemaphoreInner).acquire_timeout 64 false true false false true).sem.count = 0 ∧
    SemaphoreInner.acquireRun 64 (List.replicate 3 0) ⟨0⟩ = (none, 0) :=
  ⟨by decide, by decide, acquireRun_empty_stuck 64 3⟩

/-- What survives of the timeout-refund guarantee in the faithful model:
whenever acquire_timeout does return false, the available count is
restored to its value just before the call, for every resolution of the
race, spurious CAS failures included (a false return means the timer's
CAS succeeded, so a completing acquire side always loses its own CAS and
refunds the permit it consumed). -/
theorem acquire_timeout_false_restores (w : Nat) (s : SemaphoreInner)
    (acquireCompletes timedOut timerFirst spA spT : Bool)
    (hcnt : acquireCompletes = true → 1 ≤ s.count)
    (hw : s.count < 2 ^ w) :
    (s.acquire_timeout w acquireCompletes timedOut timerFirst spA spT).result = false →
    (s.acquire_timeout w acquireCompletes timedOut timerFirst spA spT).sem.count = s.count := by
  intro hres
  cases acquireCompletes with
  | false =>
    cases spT <;>
      simp [SemaphoreInner.acquire_timeout, markProcess] at hres ⊢
  | true =>
    have h1 : 1 ≤ s.count := hcnt rfl
    have hne : ¬ s.count = 0 := by omega
    have hmod : (s.count - 1 + 1) % 2 ^ w = s.count := by
      have he : s.count - 1 + 1 = s.count := by omega
      rw [he]
      exact Nat.mod_eq_of_lt hw
    cases timedOut <;> cases timerFirst <;> cases spA <;> cases spT <;>
      simp [SemaphoreInner.acquire_timeout, markProcess,
        SemaphoreInner.try_acquire, SemaphoreInner.add_permits,
        hne, hmod] at hres ⊢

/-- For contrast: in executions where neither weak CAS attempt fails
spuriously (spA = spT = false; e.g. on targets whose
compare_exchange_weak cannot fail spuriously), the flag race is decided
by exactly one side, the return value is exactly "the acquire side won",
and exactly one outcome occurs: true with the permit kept, or false with
the count restored.  This is the exactly-once guarantee the spec
demands; the code provides it only outside the spurious-failure case. -/
theorem acquire_timeout_exclusive_no_spurious (w : Nat) (s : SemaphoreInner)
    (acquireCompletes timedOut timerFirst : Bool)
    (hret : acquireCompletes = false → timedOut = true)
    (hcnt : acquireCompletes = true → 1 ≤ s.count)
    (hw : s.count < 2 ^ w) :
    ((s.acquire_timeout w acquireCompletes timedOut timerFirst false false).acquireMarked =
      !(s.acquire_timeout w acquireCompletes timedOut timerFirst false false).timerMarked) ∧
    ((s.acquire_timeout w acquireCompletes timedOut timerFirst false false).result =
      (s.acquire_timeout w acquireCompletes timedOut timerFirst false false).acquireMarked) ∧
    ((s.acquire_timeout w acquireCompletes timedOut timerFirst false false).result = true →
      (s.acquire_timeout w acquireCompletes timedOut timerFirst false false).sem.count + 1 = s.count ∧
      (s.acquire_timeout w acquireCompletes timedOut timerFirst false false).refunded = 0) ∧
    ((s.acquire_timeout w acquireCompletes timedOut timerFirst false false).result = false →
      (s.acquire_timeout w acquireCompletes timedOut timerFirst false false).sem.count = s.count) := by
  cases acquireCompletes with
  | false =>
    have ht : timedOut = true := hret rfl
    subst ht
    cases timerFirst <;>
      simp [SemaphoreInner.acquire_timeout, markProcess]
  | true =>
    have h1 : 1 ≤ s.count := hcnt rfl
    have hne : ¬ s.count = 0 := by omega
    have hmod : (s.count - 1 + 1) % 2 ^ w = s.count := by
      have he : s.count - 1 + 1 = s.count := by omega
      rw [he]
      exact Nat.mod_eq_of_lt hw
    cases timedOut <;> cases timerFirst <;>
      simp [SemaphoreInner.acquire_timeout, markProcess,
        SemaphoreInner.try_acquire, SemaphoreInner.add_permits, hne, hmod] <;>
      omega

end AsyncSema
